import Mathlib

/-!
Shallow embedding of the `scout` repository's Aho-Corasick automaton with
leftmost-longest match semantics (`src/ahocorasick.rs`, `src/lib.rs`),
together with theorems settling the specification's claims about it.

Bytes are modelled as `Nat` (the source uses `u8`; every byte the source can
produce is `< 256`).  Node ids (`usize`) are `Nat`.  The fixed 256-entry
transition array `[usize; 256]` is a `List Nat` of length 256, indexed with
`List.getD` and updated with `List.set`.  The two loops of
the source whose termination is not structural (the failure-link BFS queue
and the fail-chain walk of `get_next_non_fail_node_id`) take an explicit
fuel argument and return `Option`; `none` means the fuel ran out.
-/

set_option maxRecDepth 100000
set_option maxHeartbeats 4000000

namespace Scout

def FAIL : Nat := 0
def DEAD : Nat := 1
def START : Nat := 2

/-- `Match` from `src/lib.rs`. -/
structure Match where
  pattern_id : Nat
  pattern_len : Nat
deriving DecidableEq, Repr

/-- `Location` from `src/lib.rs`; the source field `r#match` is called `m`
here because `match` is a Lean keyword, and `end` is called `end_`. -/
structure Location where
  m : Match
  end_ : Nat
deriving DecidableEq, Repr

/-- `Pattern` from `src/lib.rs` (the borrowed byte slice becomes a list). -/
structure Pattern where
  id : Nat
  value : List Nat
deriving DecidableEq, Repr

/-- Automaton `Node` from `src/ahocorasick.rs`. -/
structure Node where
  matches_ : List Match
  transitions : List Nat
  fail : Nat
  depth : Nat
deriving DecidableEq, Repr

/-- `Position` from `src/ahocorasick.rs`: a queue entry of the failure-link
construction. -/
structure Position where
  id : Nat
  depth_longest_match : Option Nat
deriving DecidableEq, Repr

/-- `Node::get_longest_match_len`. -/
def Node.get_longest_match_len (n : Node) : Option Nat :=
  n.matches_.head?.map (fun p => p.pattern_len)

/-- `LeftmostLongest` from `src/ahocorasick.rs`: the node arena. -/
structure LeftmostLongest where
  nodes : List Node
deriving DecidableEq, Repr

/-- Read the node with the given id.  The source indexes `Vec<Node>`
directly; every id it uses is in bounds, so the default is never read. -/
def getNode (ll : LeftmostLongest) (id : Nat) : Node :=
  ll.nodes.getD id { matches_ := [], transitions := List.replicate 256 FAIL, fail := START, depth := 0 }

/-- Overwrite the `fail` field of node `id` (models `self.nodes[id].fail = v`). -/
def setFail (ll : LeftmostLongest) (id v : Nat) : LeftmostLongest :=
  ⟨ll.nodes.set id { getNode ll id with fail := v }⟩

/-- Overwrite one transition of node `id`
(models `self.nodes[id].transitions[byte] = v`). -/
def setTransition (ll : LeftmostLongest) (id byte v : Nat) : LeftmostLongest :=
  ⟨ll.nodes.set id { getNode ll id with transitions := (getNode ll id).transitions.set byte v }⟩

/-- Append matches to node `id`
(models `self.nodes[id].matches_.extend_from_slice(..)` / `.push(..)`). -/
def appendMatches (ll : LeftmostLongest) (id : Nat) (ms : List Match) : LeftmostLongest :=
  ⟨ll.nodes.set id { getNode ll id with matches_ := (getNode ll id).matches_ ++ ms }⟩

/-- Transition of node `id` on `byte`. -/
def trans (ll : LeftmostLongest) (id byte : Nat) : Nat :=
  (getNode ll id).transitions.getD byte FAIL

/-- `LeftmostLongest::add_node`: push a fresh node, return it with its id. -/
def add_node (ll : LeftmostLongest) (depth : Nat) : LeftmostLongest × Nat :=
  let id := ll.nodes.length
  (⟨ll.nodes ++ [{ depth := depth, fail := START, transitions := List.replicate 256 FAIL, matches_ := [] }]⟩, id)

/-- The inner byte loop of `LeftmostLongest::build_trie`: walk/extend the
chain of nodes for one pattern, returning the terminal node id.  `depth` is
the depth of `current` (the source's `depth_non_zero_index` is `depth + 1`). -/
def buildChain (ll : LeftmostLongest) (current depth : Nat) (bytes : List Nat) :
    LeftmostLongest × Nat :=
  match bytes with
  | [] => (ll, current)
  | b :: rest =>
    let t := trans ll current b
    if t = FAIL then
      let r := add_node ll (depth + 1)
      buildChain (setTransition r.1 current b r.2) r.2 (depth + 1) rest
    else
      buildChain ll t (depth + 1) rest

/-- One pattern of `LeftmostLongest::build_trie`: extend the trie and record
the pattern's `Match` at the terminal node. -/
def insertPattern (ll : LeftmostLongest) (p : Pattern) : LeftmostLongest :=
  let r := buildChain ll START 0 p.value
  appendMatches r.1 r.2 [{ pattern_id := p.id, pattern_len := p.value.length }]

/-- `LeftmostLongest::build_trie`: the three sentinel nodes, then one chain
per pattern. -/
def build_trie (ll : LeftmostLongest) (patterns : List Pattern) : LeftmostLongest :=
  let ll0 := (List.range 3).foldl (fun a _ => (add_node a 0).1) ll
  patterns.foldl insertPattern ll0

/-- Rewrite every entry of node `id`'s 256-wide transition table with `f`.
The source's State Encoder passes are `for byte in 0..256` loops that
conditionally overwrite `transitions[byte]` of one fixed node; since each
iteration touches only its own entry, the loop is the pointwise map of its
body over the table. -/
def mapTransitions (ll : LeftmostLongest) (id : Nat) (f : Nat → Nat) : LeftmostLongest :=
  ⟨ll.nodes.set id { getNode ll id with transitions := (getNode ll id).transitions.map f }⟩

/-- `LeftmostLongest::encode_start_to_start`. -/
def encode_start_to_start (ll : LeftmostLongest) : LeftmostLongest :=
  mapTransitions ll START (fun t => if t = FAIL then START else t)

/-- `LeftmostLongest::encode_dead_to_dead`. -/
def encode_dead_to_dead (ll : LeftmostLongest) : LeftmostLongest :=
  mapTransitions ll DEAD (fun t => if t = FAIL then DEAD else t)

/-- `LeftmostLongest::encode_start_to_dead`. -/
def encode_start_to_dead (ll : LeftmostLongest) : LeftmostLongest :=
  mapTransitions ll START (fun t => if t = START then DEAD else t)

/-- The initialization loop of `LeftmostLongest::encode_trie_failure`:
enqueue START's live children and force a match-carrying child's fail to
DEAD. -/
def failureInitByte (st : LeftmostLongest × List Position) (byte : Nat) :
    LeftmostLongest × List Position :=
  let (ll, queue) := st
  let transition_id := trans ll START byte
  if transition_id = START then st
  else
    let match_depth : Option Nat :=
      if (getNode ll START).matches_.length > 0 then some 0 else none
    let queue' := queue ++ [{ id := transition_id, depth_longest_match := match_depth }]
    let ll' :=
      if (getNode ll transition_id).matches_.length > 0 then setFail ll transition_id DEAD else ll
    (ll', queue')

/-- Common tail of the traversal step: assign the fail link and propagate the
fail target's matches (`extend_from_slice`).  The source reads the fail
target's matches after writing `next_id`'s fail; the two ids are distinct in
every run the source's `debug_assert!` admits. -/
def finishByte (ll : LeftmostLongest) (queue : List Position) (next_id fail_id : Nat) :
    LeftmostLongest × List Position :=
  let ll1 := setFail ll next_id fail_id
  (appendMatches ll1 next_id (getNode ll1 fail_id).matches_, queue)

/-- One byte of the BFS traversal step of `LeftmostLongest::encode_trie_failure`
for the dequeued `pos`.  The fallback block of the source contains an inner
`while` loop whose guard re-reads `nodes[position.id].transitions[byte]`; on
this path that value is `next_id`, which is not `FAIL`, so the loop body
never runs and the computed fallback is `nodes[nodes[position.id].fail].transitions[byte]`. -/
def failureStepByte (pos : Position) (st : LeftmostLongest × List Position) (byte : Nat) :
    LeftmostLongest × List Position :=
  let (ll, queue) := st
  let next_id := trans ll pos.id byte
  if next_id = FAIL then st
  else
    let transition_node := getNode ll next_id
    let next_match_depth : Option Nat :=
      match pos.depth_longest_match with
      | some depth => some depth
      | none =>
        if transition_node.matches_.length > 0 then
          some (transition_node.depth - transition_node.get_longest_match_len.getD 0 + 1)
        else none
    let queue' := queue ++ [{ id := next_id, depth_longest_match := next_match_depth }]
    let fail_id := trans ll (getNode ll pos.id).fail byte
    match next_match_depth with
    | some match_depth =>
      let fail_depth := (getNode ll fail_id).depth
      let next_depth := (getNode ll next_id).depth
      if next_depth - match_depth + 1 > fail_depth then
        (setFail ll next_id DEAD, queue')
      else
        finishByte ll queue' next_id fail_id
    | none => finishByte ll queue' next_id fail_id

/-- The queue traversal of `LeftmostLongest::encode_trie_failure`.  `prev` in
the source is the queue length right after the pop, i.e. `rest.length`; the
terminal cleanup forces a dequeued leaf's fail to DEAD when it carries a
match.  The source's `for byte in 0..256` with `continue` on
`next_id == FAIL` is rendered by folding over the live bytes only: the loop
body never writes any transition, so on a byte whose transition is `FAIL`
the `failureStepByte` guard leaves the state unchanged, and the set of live
bytes is the same whether it is read before or during the loop. -/
def failureLoop (ll : LeftmostLongest) (queue : List Position) (fuel : Nat) :
    Option LeftmostLongest :=
  match queue with
  | [] => some ll
  | pos :: rest =>
    match fuel with
    | 0 => none
    | fuel + 1 =>
      let live := (List.range 256).filter (fun b => trans ll pos.id b ≠ FAIL)
      let r := live.foldl (failureStepByte pos) (ll, rest)
      let ll2 :=
        if r.2.length = rest.length ∧ (getNode r.1 pos.id).matches_.length > 0 then
          setFail r.1 pos.id DEAD
        else r.1
      failureLoop ll2 r.2 fuel

/-- `LeftmostLongest::encode_trie_failure`.  As in `failureLoop`, the
initialization loop's `continue` on `transition_id == START` is rendered by
folding over the other bytes only; the loop body never writes a transition
of START, so the skipped bytes leave the state unchanged either way. -/
def encode_trie_failure (ll : LeftmostLongest) (fuel : Nat) : Option LeftmostLongest :=
  let r :=
    ((List.range 256).filter (fun b => trans ll START b ≠ START)).foldl failureInitByte (ll, [])
  failureLoop r.1 r.2 fuel

/-- `LeftmostLongest::new`: trie, the two sentinel encodings, failure links,
then — only after the failure pass, and only when START carries a match —
the START-to-DEAD encoding. -/
def LeftmostLongest.new (patterns : List Pattern) (fuel : Nat) : Option LeftmostLongest :=
  let ll := build_trie ⟨[]⟩ patterns
  let ll := encode_start_to_start ll
  let ll := encode_dead_to_dead ll
  match encode_trie_failure ll fuel with
  | none => none
  | some ll2 =>
    some (if (getNode ll2 START).matches_.length > 0 then encode_start_to_dead ll2 else ll2)

/-- `LeftmostLongest::get_location`. -/
def get_location (ll : LeftmostLongest) (id mtch endIdx : Nat) : Option Location :=
  let node := getNode ll id
  if node.matches_.length = 0 ∨ mtch ≥ node.matches_.length then none
  else some { m := node.matches_.getD mtch { pattern_id := 0, pattern_len := 0 }, end_ := endIdx }

/-- `LeftmostLongest::get_next_non_fail_node_id`, with fuel for the fail-link
walk; `none` means the walk ran out of fuel. -/
def get_next_non_fail_node_id (ll : LeftmostLongest) (id byte fuel : Nat) : Option Nat :=
  match fuel with
  | 0 => none
  | fuel + 1 =>
    let next := trans ll id byte
    if next ≠ FAIL then some next
    else get_next_non_fail_node_id ll (getNode ll id).fail byte fuel

/-- The scan loop of `LeftmostLongest::find`.  The source advances an index
`start_byte_index` through the haystack; here the walk is over the remaining
haystack suffix `rest` while `i` tracks the index (so `rest` is always
`hay.drop i`).  `wf` is the fuel handed to each fail-link walk; the outer
`none` means a walk ran out of fuel, `some r` is the source's return value. -/
def findLoop (ll : LeftmostLongest) (rest : List Nat) (i curNode : Nat)
    (last : Option Location) (wf : Nat) : Option (Option Location) :=
  match rest with
  | [] => some last
  | b :: rest' =>
    match get_next_non_fail_node_id ll curNode b wf with
    | none => none
    | some cur =>
      if cur = DEAD then some last
      else
        let last' :=
          match get_location ll cur 0 (i + 1) with
          | some loc => some loc
          | none => last
        findLoop ll rest' (i + 1) cur last' wf

/-- `LeftmostLongest::find`. -/
def find (ll : LeftmostLongest) (hay : List Nat) (start wf : Nat) : Option (Option Location) :=
  findLoop ll (hay.drop start) start START (get_location ll START 0 start) wf

/-- The `all` driver of the source's test module: repeatedly `find`, resuming
at the previous match's `end` (or one past the current position when the
match is empty), collecting the returned locations. -/
def allLoop (ll : LeftmostLongest) (hay : List Nat) (at_ : Nat) (acc : List Location)
    (wf fuel : Nat) : Option (List Location) :=
  if at_ < hay.length then
    match fuel with
    | 0 => none
    | fuel + 1 =>
      match find ll hay at_ wf with
      | none => none
      | some none => some acc
      | some (some loc) =>
        let at' := if loc.end_ = at_ then at_ + 1 else loc.end_
        allLoop ll hay at' (acc ++ [loc]) wf fuel
  else some acc

/-- Mirror of `get_next_non_fail_node_id` that also records every node id
whose transition table the walk consulted, in order. -/
def walkVisited (ll : LeftmostLongest) (id byte fuel : Nat) : Option (List Nat) :=
  match fuel with
  | 0 => none
  | fuel + 1 =>
    let next := trans ll id byte
    if next ≠ FAIL then some [id]
    else (walkVisited ll (getNode ll id).fail byte fuel).map (fun v => id :: v)

/-- The fallback computation of §4.3 step 2 of the specification, stated in
the spec's words: follow `n`'s own failure chain (`fail n`, `fail (fail n)`,
…) until a node with a defined transition on `byte` is found, and return that
node's transition on `byte`. -/
def specFailureChainTarget (ll : LeftmostLongest) (id byte fuel : Nat) : Option Nat :=
  match fuel with
  | 0 => none
  | fuel + 1 =>
    let f := (getNode ll id).fail
    if trans ll f byte ≠ FAIL then some (trans ll f byte)
    else specFailureChainTarget ll f byte fuel

/-- The construction ordering the specification prescribes: the whole State
Encoder (its three passes in order, pass 3 conditional on START carrying a
match) completes before the Failure-Link Constructor runs. -/
def LeftmostLongest.newSpecOrder (patterns : List Pattern) (fuel : Nat) :
    Option LeftmostLongest :=
  let ll := build_trie ⟨[]⟩ patterns
  let ll := encode_start_to_start ll
  let ll := encode_dead_to_dead ll
  let ll := if (getNode ll START).matches_.length > 0 then encode_start_to_dead ll else ll
  encode_trie_failure ll fuel

/-- Patterns of the source's `ahocorasick_basics` test:
`{0:"bc", 1:"ghi", 2:"o p", 3:"qr"}`. -/
def pats7 : List Pattern :=
  [⟨0, [98, 99]⟩, ⟨1, [103, 104, 105]⟩, ⟨2, [111, 32, 112]⟩, ⟨3, [113, 114]⟩]

/-- Haystack of the `ahocorasick_basics` test: `"abc def ghi jkl mno pqr abc"`. -/
def hay7 : List Nat :=
  [97, 98, 99, 32, 100, 101, 102, 32, 103, 104, 105, 32, 106, 107, 108, 32,
   109, 110, 111, 32, 112, 113, 114, 32, 97, 98, 99]

/-- Pattern set `{0:"abcx", 1:"bd", 2:"c"}`: the trie nodes are
3 = "a", 4 = "ab", 5 = "abc", 6 = "abcx", 7 = "b", 8 = "bd", 9 = "c". -/
def pats1 : List Pattern :=
  [⟨0, [97, 98, 99, 120]⟩, ⟨1, [98, 100]⟩, ⟨2, [99]⟩]

/-- Pattern set `{0:"abcx", 1:"bd"}`: the trie nodes are
3 = "a", 4 = "ab", 5 = "abc", 6 = "abcx", 7 = "b", 8 = "bd". -/
def pats2 : List Pattern :=
  [⟨0, [97, 98, 99, 120]⟩, ⟨1, [98, 100]⟩]

/-- A 256-wide transition table given as its default entry and the
exceptional entries; used to write down computed automatons explicitly. -/
def tbl (dflt : Nat) (assoc : List (Nat × Nat)) : List Nat :=
  (List.range 256).map (fun b =>
    match assoc.find? (fun p => p.1 = b) with
    | some p => p.2
    | none => dflt)

/-- The automaton `LeftmostLongest::new` builds for `pats7`, written out:
node 3 = "b", 4 = "bc", 5 = "g", 6 = "gh", 7 = "ghi", 8 = "o", 9 = "o ",
10 = "o p", 11 = "q", 12 = "qr". -/
def auto7 : LeftmostLongest := ⟨[
  ⟨[], tbl 0 [], 2, 0⟩,
  ⟨[], tbl 1 [], 2, 0⟩,
  ⟨[], tbl 2 [(98, 3), (103, 5), (111, 8), (113, 11)], 2, 0⟩,
  ⟨[], tbl 0 [(99, 4)], 2, 1⟩,
  ⟨[⟨0, 2⟩], tbl 0 [], 1, 2⟩,
  ⟨[], tbl 0 [(104, 6)], 2, 1⟩,
  ⟨[], tbl 0 [(105, 7)], 2, 2⟩,
  ⟨[⟨1, 3⟩], tbl 0 [], 1, 3⟩,
  ⟨[], tbl 0 [(32, 9)], 2, 1⟩,
  ⟨[], tbl 0 [(112, 10)], 2, 2⟩,
  ⟨[⟨2, 3⟩], tbl 0 [], 1, 3⟩,
  ⟨[], tbl 0 [(114, 12)], 2, 1⟩,
  ⟨[⟨3, 2⟩], tbl 0 [], 1, 2⟩]⟩

/-- The automaton `LeftmostLongest::new` builds for `pats1`, written out:
node 3 = "a", 4 = "ab", 5 = "abc", 6 = "abcx", 7 = "b", 8 = "bd", 9 = "c".
Note `fail = 0` (the FAIL sentinel) on node 5. -/
def auto1 : LeftmostLongest := ⟨[
  ⟨[], tbl 0 [], 2, 0⟩,
  ⟨[], tbl 1 [], 2, 0⟩,
  ⟨[], tbl 2 [(97, 3), (98, 7), (99, 9)], 2, 0⟩,
  ⟨[], tbl 0 [(98, 4)], 2, 1⟩,
  ⟨[], tbl 0 [(99, 5)], 7, 2⟩,
  ⟨[], tbl 0 [(120, 6)], 0, 3⟩,
  ⟨[⟨0, 4⟩], tbl 0 [], 1, 4⟩,
  ⟨[], tbl 0 [(100, 8)], 2, 1⟩,
  ⟨[⟨1, 2⟩], tbl 0 [], 1, 2⟩,
  ⟨[⟨2, 1⟩], tbl 0 [], 1, 1⟩]⟩

/-- The automaton `LeftmostLongest::new` builds for `pats2`, written out:
node 3 = "a", 4 = "ab", 5 = "abc", 6 = "abcx", 7 = "b", 8 = "bd".
Note `fail = 0` (the FAIL sentinel) on node 5. -/
def auto2 : LeftmostLongest := ⟨[
  ⟨[], tbl 0 [], 2, 0⟩,
  ⟨[], tbl 1 [], 2, 0⟩,
  ⟨[], tbl 2 [(97, 3), (98, 7)], 2, 0⟩,
  ⟨[], tbl 0 [(98, 4)], 2, 1⟩,
  ⟨[], tbl 0 [(99, 5)], 7, 2⟩,
  ⟨[], tbl 0 [(120, 6)], 0, 3⟩,
  ⟨[⟨0, 4⟩], tbl 0 [], 1, 4⟩,
  ⟨[], tbl 0 [(100, 8)], 2, 1⟩,
  ⟨[⟨1, 2⟩], tbl 0 [], 1, 2⟩]⟩


/-- The automaton `LeftmostLongest::new` builds for the empty pattern set:
only the three sentinels; START self-loops on every byte. -/
def autoNil : LeftmostLongest := ⟨[
  ⟨[], tbl 0 [], 2, 0⟩,
  ⟨[], tbl 1 [], 2, 0⟩,
  ⟨[], tbl 2 [], 2, 0⟩]⟩

/-- The automaton `LeftmostLongest::new` builds for the single zero-length
pattern `{0: ""}`: the match sits at START and every START transition was
redirected to DEAD by `encode_start_to_dead`. -/
def autoE : LeftmostLongest := ⟨[
  ⟨[], tbl 0 [], 2, 0⟩,
  ⟨[], tbl 1 [], 2, 0⟩,
  ⟨[⟨0, 0⟩], tbl 1 [], 2, 0⟩]⟩

/-- `autoE` after one BFS step of the spec-ordered construction: the DEAD
node's fail has been forced to DEAD itself. -/
def autoEStep : LeftmostLongest := ⟨[
  ⟨[], tbl 0 [], 2, 0⟩,
  ⟨[], tbl 1 [], 1, 0⟩,
  ⟨[⟨0, 0⟩], tbl 1 [], 2, 0⟩]⟩

/-! Structural invariants established by the Trie Builder. -/

/-- Every transition is either undefined (`FAIL`) or points at a
pattern-derived node (id at least 3). -/
def BuildTransOk (ll : LeftmostLongest) : Prop :=
  ∀ i b, trans ll i b = FAIL ∨ 3 ≤ trans ll i b

/-- No node other than START has a transition to START. -/
def NoTransToStart (ll : LeftmostLongest) : Prop :=
  ∀ i b, i ≠ START → trans ll i b ≠ START

/-- A queue whose entries never name the START node. -/
def queueOK (q : List Position) : Prop := ∀ pos ∈ q, pos.id ≠ START

/-! Basic facts about the arena operations. -/

theorem getNode_set (nodes : List Node) (id : Nat) (n : Node) (i : Nat) :
    getNode ⟨nodes.set id n⟩ i = if id = i ∧ id < nodes.length then n else getNode ⟨nodes⟩ i := by
  unfold getNode
  by_cases h : id = i
  · subst h
    by_cases h2 : id < nodes.length
    · simp [List.getD_eq_getElem?_getD, List.getElem?_set_self h2, h2]
    · rw [List.set_eq_of_length_le (Nat.le_of_not_lt h2)]
      simp [h2]
  · simp [List.getD_eq_getElem?_getD, List.getElem?_set_ne h, h]

theorem getNode_append (nodes : List Node) (x : Node) (i : Nat) :
    getNode ⟨nodes ++ [x]⟩ i = if i = nodes.length then x else getNode ⟨nodes⟩ i := by
  unfold getNode
  rcases Nat.lt_trichotomy i nodes.length with h | h | h
  · rw [List.getD_append _ _ _ _ h]
    simp [Nat.ne_of_lt h]
  · subst h
    simp [List.getD_eq_getElem?_getD, List.getElem?_append_right (Nat.le_refl _)]
  · have h1 : nodes.length ≤ i := Nat.le_of_lt h
    have h2 : (nodes ++ [x]).length ≤ i := by
      simpa using h
    simp [List.getD_eq_getElem?_getD, List.getElem?_eq_none h1, List.getElem?_eq_none h2,
      Nat.ne_of_gt h]

theorem getD_set_master {α : Type} (l : List α) (b b' : Nat) (v d : α) :
    (l.set b v).getD b' d = if b = b' ∧ b < l.length then v else l.getD b' d := by
  by_cases h : b = b'
  · subst h
    by_cases h2 : b < l.length
    · simp [List.getD_eq_getElem?_getD, List.getElem?_set_self h2, h2]
    · rw [List.set_eq_of_length_le (Nat.le_of_not_lt h2)]
      simp [h2]
  · simp [List.getD_eq_getElem?_getD, List.getElem?_set_ne h, h]

theorem getD_replicate_master {α : Type} (n b : Nat) (d x : α) :
    (List.replicate n d).getD b x = if b < n then d else x := by
  simp only [List.getD_eq_getElem?_getD, List.getElem?_replicate]
  split <;> rfl

/-! Field preservation under the arena mutators. -/

theorem matches_setFail (ll : LeftmostLongest) (id v i : Nat) :
    (getNode (setFail ll id v) i).matches_ = (getNode ll i).matches_ := by
  unfold setFail
  rw [getNode_set]
  split
  · next h => rw [h.1]
  · rfl

theorem trans_setFail (ll : LeftmostLongest) (id v i b : Nat) :
    trans (setFail ll id v) i b = trans ll i b := by
  unfold trans setFail
  rw [getNode_set]
  split
  · next h => rw [h.1]
  · rfl

theorem matches_setTransition (ll : LeftmostLongest) (id byte v i : Nat) :
    (getNode (setTransition ll id byte v) i).matches_ = (getNode ll i).matches_ := by
  unfold setTransition
  rw [getNode_set]
  split
  · next h => rw [h.1]
  · rfl

theorem matches_mapTransitions (ll : LeftmostLongest) (id : Nat) (f : Nat → Nat) (i : Nat) :
    (getNode (mapTransitions ll id f) i).matches_ = (getNode ll i).matches_ := by
  unfold mapTransitions
  rw [getNode_set]
  split
  · next h => rw [h.1]
  · rfl

theorem trans_appendMatches (ll : LeftmostLongest) (id : Nat) (ms : List Match) (i b : Nat) :
    trans (appendMatches ll id ms) i b = trans ll i b := by
  unfold trans appendMatches
  rw [getNode_set]
  split
  · next h => rw [h.1]
  · rfl

theorem matches_appendMatches_ne (ll : LeftmostLongest) (id : Nat) (ms : List Match) (i : Nat)
    (h : i ≠ id) : (getNode (appendMatches ll id ms) i).matches_ = (getNode ll i).matches_ := by
  unfold appendMatches
  rw [getNode_set]
  split
  · next h2 => exact absurd h2.1.symm h
  · rfl

theorem matches_appendMatches_self (ll : LeftmostLongest) (id : Nat) (ms : List Match)
    (h : id < ll.nodes.length) :
    (getNode (appendMatches ll id ms) id).matches_ = (getNode ll id).matches_ ++ ms := by
  unfold appendMatches
  rw [getNode_set]
  simp [h]

theorem trans_setTransition_or (ll : LeftmostLongest) (id byte v i b : Nat) :
    trans (setTransition ll id byte v) i b = trans ll i b ∨
      trans (setTransition ll id byte v) i b = v := by
  unfold trans setTransition
  rw [getNode_set]
  split
  · next h =>
    rw [h.1]
    rw [getD_set_master]
    split
    · exact Or.inr rfl
    · exact Or.inl rfl
  · exact Or.inl rfl

theorem trans_setTransition_ne (ll : LeftmostLongest) (id byte v i b : Nat) (h : i ≠ id) :
    trans (setTransition ll id byte v) i b = trans ll i b := by
  unfold trans setTransition
  rw [getNode_set]
  split
  · next h2 => exact absurd h2.1.symm h
  · rfl

theorem trans_mapTransitions_or (ll : LeftmostLongest) (id : Nat) (f : Nat → Nat) (i b : Nat) :
    trans (mapTransitions ll id f) i b = trans ll i b ∨
      trans (mapTransitions ll id f) i b = f (trans ll i b) := by
  unfold trans mapTransitions
  rw [getNode_set]
  split
  · next h =>
    rw [h.1]
    simp only [List.getD_eq_getElem?_getD, List.getElem?_map]
    cases h3 : (getNode ll i).transitions[b]?
    · exact Or.inl rfl
    · exact Or.inr rfl
  · exact Or.inl rfl

theorem trans_mapTransitions_ne (ll : LeftmostLongest) (id : Nat) (f : Nat → Nat) (i b : Nat)
    (h : i ≠ id) : trans (mapTransitions ll id f) i b = trans ll i b := by
  unfold trans mapTransitions
  rw [getNode_set]
  split
  · next h2 => exact absurd h2.1.symm h
  · rfl

theorem matches_add_node (ll : LeftmostLongest) (d i : Nat) :
    (getNode (add_node ll d).1 i).matches_ = (getNode ll i).matches_ := by
  unfold add_node
  rw [getNode_append]
  split
  · next h =>
    subst h
    have : ll.nodes.length ≤ ll.nodes.length := Nat.le_refl _
    unfold getNode
    simp [List.getD_eq_getElem?_getD, List.getElem?_eq_none this]
  · rfl

theorem trans_add_node_or (ll : LeftmostLongest) (d i b : Nat) :
    trans (add_node ll d).1 i b = trans ll i b ∨ trans (add_node ll d).1 i b = FAIL := by
  unfold trans add_node
  rw [getNode_append]
  split
  · next h =>
    subst h
    right
    simp only [getD_replicate_master]
    split <;> rfl
  · exact Or.inl rfl

theorem length_setFail (ll : LeftmostLongest) (id v : Nat) :
    (setFail ll id v).nodes.length = ll.nodes.length := by
  unfold setFail
  simp

theorem length_setTransition (ll : LeftmostLongest) (id byte v : Nat) :
    (setTransition ll id byte v).nodes.length = ll.nodes.length := by
  unfold setTransition
  simp

theorem length_appendMatches (ll : LeftmostLongest) (id : Nat) (ms : List Match) :
    (appendMatches ll id ms).nodes.length = ll.nodes.length := by
  unfold appendMatches
  simp

theorem length_add_node (ll : LeftmostLongest) (d : Nat) :
    (add_node ll d).1.nodes.length = ll.nodes.length + 1 := by
  unfold add_node
  simp

/-! Invariants of the Trie Builder. -/

theorem buildChain_facts (bytes : List Nat) : ∀ (ll : LeftmostLongest) (cur dep : Nat),
    BuildTransOk ll → 3 ≤ ll.nodes.length →
    BuildTransOk (buildChain ll cur dep bytes).1 ∧
    3 ≤ (buildChain ll cur dep bytes).1.nodes.length ∧
    (∀ i, (getNode (buildChain ll cur dep bytes).1 i).matches_ = (getNode ll i).matches_) ∧
    (3 ≤ (buildChain ll cur dep bytes).2 ∨ (bytes = [] ∧ (buildChain ll cur dep bytes).2 = cur)) := by
  induction bytes with
  | nil => exact fun ll cur dep h1 h2 => ⟨h1, h2, fun i => rfl, Or.inr ⟨rfl, rfl⟩⟩
  | cons b rest ih =>
    intro ll cur dep h1 h2
    simp only [buildChain]
    by_cases ht : trans ll cur b = FAIL
    · simp only [ht, ite_true]
      have hok : BuildTransOk
          (setTransition (add_node ll (dep + 1)).1 cur b (add_node ll (dep + 1)).2) := by
        intro i b'
        rcases trans_setTransition_or (add_node ll (dep + 1)).1 cur b (add_node ll (dep + 1)).2
            i b' with h | h
        · rw [h]
          rcases trans_add_node_or ll (dep + 1) i b' with h3 | h3
          · rw [h3]; exact h1 i b'
          · rw [h3]; exact Or.inl rfl
        · rw [h]
          exact Or.inr h2
      have hlen : 3 ≤
          (setTransition (add_node ll (dep + 1)).1 cur b (add_node ll (dep + 1)).2).nodes.length := by
        rw [length_setTransition, length_add_node]
        exact Nat.le_succ_of_le h2
      obtain ⟨c1, c2, c3, c4⟩ := ih _ _ (dep + 1) hok hlen
      refine ⟨c1, c2, ?_, ?_⟩
      · intro i
        rw [c3 i, matches_setTransition, matches_add_node]
      · left
        rcases c4 with h | h
        · exact h
        · rw [h.2]; exact h2
    · simp only [ht, ite_false]
      obtain ⟨c1, c2, c3, c4⟩ := ih ll _ (dep + 1) h1 h2
      refine ⟨c1, c2, c3, ?_⟩
      left
      have h3 : 3 ≤ trans ll cur b := (h1 cur b).resolve_left ht
      rcases c4 with h | h
      · exact h
      · rw [h.2]; exact h3

theorem insertPattern_facts (ll : LeftmostLongest) (p : Pattern)
    (h1 : BuildTransOk ll) (h2 : 3 ≤ ll.nodes.length) :
    BuildTransOk (insertPattern ll p) ∧ 3 ≤ (insertPattern ll p).nodes.length ∧
    (getNode (insertPattern ll p) START).matches_ =
      (getNode ll START).matches_ ++ (if p.value.isEmpty then [⟨p.id, 0⟩] else []) := by
  obtain ⟨c1, c2, c3, c4⟩ := buildChain_facts p.value ll START 0 h1 h2
  have ok : BuildTransOk (insertPattern ll p) := by
    intro i b
    simp only [insertPattern]
    rw [trans_appendMatches]
    exact c1 i b
  have len : 3 ≤ (insertPattern ll p).nodes.length := by
    simp only [insertPattern]
    rw [length_appendMatches]
    exact c2
  refine ⟨ok, len, ?_⟩
  cases hv : p.value with
  | nil =>
    have hbc : buildChain ll START 0 p.value = (ll, START) := by rw [hv]; rfl
    simp only [insertPattern]
    rw [hbc]
    rw [matches_appendMatches_self ll START _ (Nat.lt_of_lt_of_le (by decide) h2)]
    simp [hv]
  | cons b bs =>
    have hlast : 3 ≤ (buildChain ll START 0 p.value).2 := by
      rcases c4 with h | h
      · exact h
      · rw [hv] at h
        exact absurd h.1 (by simp)
    have hne : START ≠ (buildChain ll START 0 p.value).2 :=
      Nat.ne_of_lt (Nat.lt_of_lt_of_le (by decide) hlast)
    simp only [insertPattern]
    rw [matches_appendMatches_ne _ _ _ _ hne, c3]
    simp [hv]

theorem foldl_invariant {α β : Type} (P : α → Prop) (f : α → β → α) (l : List β)
    (hf : ∀ a b, P a → P (f a b)) : ∀ a, P a → P (l.foldl f a) := by
  induction l with
  | nil => exact fun a h => h
  | cons x xs ih => exact fun a h => ih (f a x) (hf a x h)

theorem build_trie_facts (ps : List Pattern) :
    BuildTransOk (build_trie ⟨[]⟩ ps) ∧ 3 ≤ (build_trie ⟨[]⟩ ps).nodes.length ∧
    (getNode (build_trie ⟨[]⟩ ps) START).matches_ =
      (ps.filter (fun p => p.value.isEmpty)).map (fun p => (⟨p.id, 0⟩ : Match)) := by
  have harena : (List.range 3).foldl (fun a _ => (add_node a 0).1) (⟨[]⟩ : LeftmostLongest) =
      ⟨[⟨[], List.replicate 256 FAIL, START, 0⟩, ⟨[], List.replicate 256 FAIL, START, 0⟩,
        ⟨[], List.replicate 256 FAIL, START, 0⟩]⟩ := rfl
  have h0 : BuildTransOk ((List.range 3).foldl (fun a _ => (add_node a 0).1) ⟨[]⟩) := by
    rw [harena]
    intro i b
    left
    show (getNode _ i).transitions.getD b FAIL = FAIL
    have : (getNode ⟨[⟨[], List.replicate 256 FAIL, START, 0⟩, ⟨[], List.replicate 256 FAIL, START, 0⟩,
        ⟨[], List.replicate 256 FAIL, START, 0⟩]⟩ i).transitions = List.replicate 256 FAIL := by
      rcases i with _ | _ | _ | i <;> rfl
    rw [this, getD_replicate_master]
    split <;> rfl
  have hgen : ∀ (qs : List Pattern) (ll : LeftmostLongest), BuildTransOk ll →
      3 ≤ ll.nodes.length →
      BuildTransOk (qs.foldl insertPattern ll) ∧ 3 ≤ (qs.foldl insertPattern ll).nodes.length ∧
      (getNode (qs.foldl insertPattern ll) START).matches_ =
        (getNode ll START).matches_ ++
          (qs.filter (fun p => p.value.isEmpty)).map (fun p => (⟨p.id, 0⟩ : Match)) := by
    intro qs
    induction qs with
    | nil => exact fun ll h1 h2 => ⟨h1, h2, by simp⟩
    | cons p ps ih =>
      intro ll h1 h2
      obtain ⟨c1, c2, c3⟩ := insertPattern_facts ll p h1 h2
      obtain ⟨d1, d2, d3⟩ := ih (insertPattern ll p) c1 c2
      refine ⟨d1, d2, ?_⟩
      rw [List.foldl_cons] at *
      rw [d3, c3, List.filter_cons]
      by_cases hp : p.value.isEmpty
      · simp [hp, List.append_assoc]
      · simp [hp]
  unfold build_trie
  obtain ⟨e1, e2, e3⟩ := hgen ps _ h0 (by rw [harena]; decide)
  refine ⟨e1, e2, ?_⟩
  rw [e3, harena]
  have : (getNode ⟨[⟨[], List.replicate 256 FAIL, START, 0⟩, ⟨[], List.replicate 256 FAIL, START, 0⟩,
      ⟨[], List.replicate 256 FAIL, START, 0⟩]⟩ START).matches_ = [] := rfl
  rw [this]
  rfl

/-- After the Trie Builder and the first two State Encoder passes, no node
other than START has a transition to START. -/
theorem encoded_NoTransToStart (ps : List Pattern) :
    NoTransToStart (encode_dead_to_dead (encode_start_to_start (build_trie ⟨[]⟩ ps))) := by
  obtain ⟨hb, _, _⟩ := build_trie_facts ps
  intro i b hi
  by_cases h1 : i = DEAD
  · subst h1
    have hs : trans (encode_start_to_start (build_trie ⟨[]⟩ ps)) DEAD b =
        trans (build_trie ⟨[]⟩ ps) DEAD b :=
      trans_mapTransitions_ne _ _ _ _ _ (by decide)
    rcases trans_mapTransitions_or (encode_start_to_start (build_trie ⟨[]⟩ ps)) DEAD
        (fun t => if t = FAIL then DEAD else t) DEAD b with h | h
    · rw [encode_dead_to_dead, h, hs]
      rcases hb DEAD b with h3 | h3
      · rw [h3]; decide
      · simp only [START]; omega
    · rw [encode_dead_to_dead, h, hs]
      rcases hb DEAD b with h3 | h3
      · rw [h3]; decide
      · have : trans (build_trie ⟨[]⟩ ps) DEAD b ≠ FAIL := by simp only [FAIL]; omega
        rw [if_neg this]
        simp only [START]; omega
  · have hd : trans (encode_dead_to_dead (encode_start_to_start (build_trie ⟨[]⟩ ps))) i b =
        trans (encode_start_to_start (build_trie ⟨[]⟩ ps)) i b :=
      trans_mapTransitions_ne _ _ _ _ _ h1
    have hs : trans (encode_start_to_start (build_trie ⟨[]⟩ ps)) i b =
        trans (build_trie ⟨[]⟩ ps) i b :=
      trans_mapTransitions_ne _ _ _ _ _ hi
    rw [hd, hs]
    rcases hb i b with h3 | h3
    · rw [h3]; decide
    · simp only [START]; omega

/-! Preservation of START's match list by the Failure-Link Constructor. -/

theorem failureInitByte_pres (ll : LeftmostLongest) (q : List Position) (b : Nat) :
    (∀ i b', trans (failureInitByte (ll, q) b).1 i b' = trans ll i b') ∧
    (getNode (failureInitByte (ll, q) b).1 START).matches_ = (getNode ll START).matches_ ∧
    (queueOK q → queueOK (failureInitByte (ll, q) b).2) := by
  simp only [failureInitByte]
  by_cases hg : trans ll START b = START
  · simp only [hg, ite_true]
    exact ⟨fun i b' => by first | rfl | trivial, by first | rfl | trivial, fun h => h⟩
  · simp only [hg, ite_false]
    by_cases hm : (getNode ll (trans ll START b)).matches_.length > 0
    · simp only [hm, ite_true]
      refine ⟨fun i b' => trans_setFail ll _ _ i b', matches_setFail ll _ _ START, ?_⟩
      intro hq pos hmem
      rcases List.mem_append.mp hmem with h | h
      · exact hq pos h
      · rcases List.mem_singleton.mp h with rfl
        exact hg
    · simp only [hm, ite_false]
      refine ⟨fun i b' => by first | rfl | trivial, by first | rfl | trivial, ?_⟩
      intro hq pos hmem
      rcases List.mem_append.mp hmem with h | h
      · exact hq pos h
      · rcases List.mem_singleton.mp h with rfl
        exact hg

theorem failureStepByte_pres (pos : Position) (hpos : pos.id ≠ START) (ll : LeftmostLongest)
    (q : List Position) (b : Nat) (hNT : NoTransToStart ll) :
    (∀ i b', trans (failureStepByte pos (ll, q) b).1 i b' = trans ll i b') ∧
    (getNode (failureStepByte pos (ll, q) b).1 START).matches_ =
      (getNode ll START).matches_ ∧
    (queueOK q → queueOK (failureStepByte pos (ll, q) b).2) := by
  have hnext : trans ll pos.id b ≠ START := hNT pos.id b hpos
  have hStartNe : START ≠ trans ll pos.id b := fun h => hnext h.symm
  simp only [failureStepByte]
  by_cases hg : trans ll pos.id b = FAIL
  · simp only [hg, ite_true]
    exact ⟨fun i b' => by first | rfl | trivial, by first | rfl | trivial, fun h => h⟩
  · simp only [hg, ite_false]
    have hqueue : queueOK q → queueOK (q ++
        [{ id := trans ll pos.id b,
           depth_longest_match :=
             match pos.depth_longest_match with
             | some depth => some depth
             | none =>
               if (getNode ll (trans ll pos.id b)).matches_.length > 0 then
                 some ((getNode ll (trans ll pos.id b)).depth -
                   (getNode ll (trans ll pos.id b)).get_longest_match_len.getD 0 + 1)
               else none }]) := by
      intro hq pos' hmem
      rcases List.mem_append.mp hmem with h | h
      · exact hq pos' h
      · rcases List.mem_singleton.mp h with rfl
        exact hnext
    have hfin : ∀ (q' : List Position) (fid : Nat),
        (∀ i b', trans (finishByte ll q' (trans ll pos.id b) fid).1 i b' = trans ll i b') ∧
        (getNode (finishByte ll q' (trans ll pos.id b) fid).1 START).matches_ =
          (getNode ll START).matches_ ∧
        (finishByte ll q' (trans ll pos.id b) fid).2 = q' := by
      intro q' fid
      simp only [finishByte]
      refine ⟨?_, ?_, by first | rfl | trivial⟩
      · intro i b'
        rw [trans_appendMatches, trans_setFail]
      · rw [matches_appendMatches_ne _ _ _ _ hStartNe, matches_setFail]
    rcases hd : pos.depth_longest_match with _ | depth
    · simp only [hd]
      by_cases hm : (getNode ll (trans ll pos.id b)).matches_.length > 0
      · simp only [hm, ite_true]
        by_cases hll : (getNode ll (trans ll pos.id b)).depth -
            ((getNode ll (trans ll pos.id b)).depth -
              (getNode ll (trans ll pos.id b)).get_longest_match_len.getD 0 + 1) + 1 >
            (getNode ll (trans ll (getNode ll pos.id).fail b)).depth
        · simp only [hll, ite_true]
          refine ⟨fun i b' => trans_setFail ll _ _ i b', matches_setFail ll _ _ START, ?_⟩
          intro hq
          simpa [hd, hm] using hqueue hq
        · simp only [hll, ite_false]
          obtain ⟨f1, f2, f3⟩ := hfin _ (trans ll (getNode ll pos.id).fail b)
          refine ⟨f1, f2, ?_⟩
          intro hq
          rw [f3]
          simpa [hd, hm] using hqueue hq
      · simp only [hm, ite_false]
        obtain ⟨f1, f2, f3⟩ := hfin _ (trans ll (getNode ll pos.id).fail b)
        refine ⟨f1, f2, ?_⟩
        intro hq
        rw [f3]
        simpa [hd, hm] using hqueue hq
    · simp only [hd]
      by_cases hll : (getNode ll (trans ll pos.id b)).depth - depth + 1 >
          (getNode ll (trans ll (getNode ll pos.id).fail b)).depth
      · simp only [hll, ite_true]
        refine ⟨fun i b' => trans_setFail ll _ _ i b', matches_setFail ll _ _ START, ?_⟩
        intro hq
        simpa [hd] using hqueue hq
      · simp only [hll, ite_false]
        obtain ⟨f1, f2, f3⟩ := hfin _ (trans ll (getNode ll pos.id).fail b)
        refine ⟨f1, f2, ?_⟩
        intro hq
        rw [f3]
        simpa [hd] using hqueue hq

theorem failureLoop_pres (fuel : Nat) : ∀ (ll : LeftmostLongest) (q : List Position)
    (ll' : LeftmostLongest), NoTransToStart ll → queueOK q →
    failureLoop ll q fuel = some ll' →
    (∀ i b, trans ll' i b = trans ll i b) ∧
    (getNode ll' START).matches_ = (getNode ll START).matches_ := by
  induction fuel with
  | zero =>
    intro ll q ll' hNT hq hrun
    cases q with
    | nil =>
      simp only [failureLoop] at hrun
      cases hrun
      exact ⟨fun i b => rfl, rfl⟩
    | cons pos rest =>
      simp only [failureLoop] at hrun
      exact Option.noConfusion hrun
  | succ fuel ih =>
    intro ll q ll' hNT hq hrun
    cases q with
    | nil =>
      simp only [failureLoop] at hrun
      cases hrun
      exact ⟨fun i b => rfl, rfl⟩
    | cons pos rest =>
      simp only [failureLoop] at hrun
      set r := ((List.range 256).filter (fun b => trans ll pos.id b ≠ FAIL)).foldl
        (failureStepByte pos) (ll, rest) with hr
      have hpos : pos.id ≠ START := hq pos (List.mem_cons_self pos rest)
      have hstep : ∀ (st : LeftmostLongest × List Position) (b : Nat),
          ((∀ i b', trans st.1 i b' = trans ll i b') ∧
           (getNode st.1 START).matches_ = (getNode ll START).matches_ ∧
           queueOK st.2) →
          ((∀ i b', trans (failureStepByte pos st b).1 i b' = trans ll i b') ∧
           (getNode (failureStepByte pos st b).1 START).matches_ =
             (getNode ll START).matches_ ∧
           queueOK (failureStepByte pos st b).2) := by
        intro st b hst
        obtain ⟨s1, s2, s3⟩ := hst
        have hNT' : NoTransToStart st.1 := by
          intro i b' hi
          rw [s1 i b']
          exact hNT i b' hi
        obtain ⟨t1, t2, t3⟩ := failureStepByte_pres pos hpos st.1 st.2 b hNT'
        exact ⟨fun i b' => (t1 i b').trans (s1 i b'), t2.trans s2, t3 s3⟩
      have hrest : queueOK rest := fun p hp => hq p (List.mem_cons_of_mem pos hp)
      have hfold := foldl_invariant
        (fun st : LeftmostLongest × List Position =>
          (∀ i b', trans st.1 i b' = trans ll i b') ∧
          (getNode st.1 START).matches_ = (getNode ll START).matches_ ∧
          queueOK st.2)
        (failureStepByte pos) ((List.range 256).filter (fun b => trans ll pos.id b ≠ FAIL))
        hstep (ll, rest) ⟨fun i b' => rfl, rfl, hrest⟩
      rw [← hr] at hfold
      obtain ⟨f1, f2, f3⟩ := hfold
      by_cases hc : r.2.length = rest.length ∧ (getNode r.1 pos.id).matches_.length > 0
      · rw [if_pos hc] at hrun
        have hNT2 : NoTransToStart (setFail r.1 pos.id DEAD) := by
          intro i b hi
          rw [trans_setFail, f1 i b]
          exact hNT i b hi
        obtain ⟨g1, g2⟩ := ih (setFail r.1 pos.id DEAD) r.2 ll' hNT2 f3 hrun
        refine ⟨?_, ?_⟩
        · intro i b
          rw [g1 i b, trans_setFail, f1 i b]
        · rw [g2, matches_setFail, f2]
      · rw [if_neg hc] at hrun
        have hNT2 : NoTransToStart r.1 := by
          intro i b hi
          rw [f1 i b]
          exact hNT i b hi
        obtain ⟨g1, g2⟩ := ih r.1 r.2 ll' hNT2 f3 hrun
        refine ⟨?_, ?_⟩
        · intro i b
          rw [g1 i b, f1 i b]
        · rw [g2, f2]

theorem encode_trie_failure_pres (ll : LeftmostLongest) (fuel : Nat) (ll' : LeftmostLongest)
    (hNT : NoTransToStart ll) (hrun : encode_trie_failure ll fuel = some ll') :
    (∀ i b, trans ll' i b = trans ll i b) ∧
    (getNode ll' START).matches_ = (getNode ll START).matches_ := by
  simp only [encode_trie_failure] at hrun
  set r := ((List.range 256).filter (fun b => trans ll START b ≠ START)).foldl
    failureInitByte (ll, []) with hr
  have hstep : ∀ (st : LeftmostLongest × List Position) (b : Nat),
      ((∀ i b', trans st.1 i b' = trans ll i b') ∧
       (getNode st.1 START).matches_ = (getNode ll START).matches_ ∧
       queueOK st.2) →
      ((∀ i b', trans (failureInitByte st b).1 i b' = trans ll i b') ∧
       (getNode (failureInitByte st b).1 START).matches_ = (getNode ll START).matches_ ∧
       queueOK (failureInitByte st b).2) := by
    intro st b hst
    obtain ⟨s1, s2, s3⟩ := hst
    obtain ⟨t1, t2, t3⟩ := failureInitByte_pres st.1 st.2 b
    exact ⟨fun i b' => (t1 i b').trans (s1 i b'), t2.trans s2, t3 s3⟩
  have hfold := foldl_invariant
    (fun st : LeftmostLongest × List Position =>
      (∀ i b', trans st.1 i b' = trans ll i b') ∧
      (getNode st.1 START).matches_ = (getNode ll START).matches_ ∧
      queueOK st.2)
    failureInitByte ((List.range 256).filter (fun b => trans ll START b ≠ START))
    hstep (ll, []) ⟨fun i b' => rfl, rfl, fun p hp => absurd hp (List.not_mem_nil p)⟩
  rw [← hr] at hfold
  obtain ⟨f1, f2, f3⟩ := hfold
  have hNT1 : NoTransToStart r.1 := by
    intro i b hi
    rw [f1 i b]
    exact hNT i b hi
  obtain ⟨g1, g2⟩ := failureLoop_pres fuel r.1 r.2 ll' hNT1 f3 hrun
  exact ⟨fun i b => (g1 i b).trans (f1 i b), g2.trans f2⟩

/-- After a successful construction, START's match list is exactly one
`Match {id, 0}` per zero-length pattern, in pattern order. -/
theorem new_startMatches (ps : List Pattern) (fuel : Nat) (a : LeftmostLongest)
    (hnew : LeftmostLongest.new ps fuel = some a) :
    (getNode a START).matches_ =
      (ps.filter (fun p => p.value.isEmpty)).map (fun p => (⟨p.id, 0⟩ : Match)) := by
  simp only [LeftmostLongest.new] at hnew
  set T := encode_dead_to_dead (encode_start_to_start (build_trie ⟨[]⟩ ps)) with hT
  cases he : encode_trie_failure T fuel with
  | none => rw [he] at hnew; cases hnew
  | some ll2 =>
    rw [he] at hnew
    obtain ⟨g1, g2⟩ := encode_trie_failure_pres T fuel ll2 (encoded_NoTransToStart ps) he
    have hTm : (getNode T START).matches_ =
        (ps.filter (fun p => p.value.isEmpty)).map (fun p => (⟨p.id, 0⟩ : Match)) := by
      rw [hT]
      unfold encode_dead_to_dead encode_start_to_start
      rw [matches_mapTransitions, matches_mapTransitions]
      exact (build_trie_facts ps).2.2
    simp only at hnew
    by_cases hm : (getNode ll2 START).matches_.length > 0
    · rw [if_pos hm] at hnew
      cases hnew
      unfold encode_start_to_dead
      rw [matches_mapTransitions, g2, hTm]
    · rw [if_neg hm] at hnew
      cases hnew
      rw [g2, hTm]

theorem get_location_head (ll : LeftmostLongest) (id e : Nat) :
    get_location ll id 0 e = ((getNode ll id).matches_.head?).map (fun m => (⟨m, e⟩ : Location)) := by
  unfold get_location
  cases h : (getNode ll id).matches_ with
  | nil => simp [h]
  | cons m ms => simp [h]

/-- Claim C9: when `start_byte_index` is at or past the end of the haystack,
`find` returns the first zero-length pattern's match recorded at START with
`end = start_byte_index` when one exists, and `None` otherwise. -/
theorem C9_scan_from_past_end (ps : List Pattern) (fuel : Nat) (a : LeftmostLongest)
    (hay : List Nat) (start wf : Nat) (hnew : LeftmostLongest.new ps fuel = some a)
    (hstart : hay.length ≤ start) :
    find a hay start wf =
      some (((ps.filter (fun p => p.value.isEmpty)).head?).map
        (fun p => (⟨⟨p.id, 0⟩, start⟩ : Location))) := by
  unfold find
  rw [List.drop_eq_nil_of_le hstart]
  show some (get_location a START 0 start) = _
  rw [get_location_head, new_startMatches ps fuel a hnew]
  cases h : ps.filter (fun p => p.value.isEmpty) with
  | nil => simp
  | cons p qs => simp

theorem get_location_end (ll : LeftmostLongest) (id e : Nat) (l : Location)
    (h : get_location ll id 0 e = some l) : l.end_ = e := by
  rw [get_location_head] at h
  cases hh : (getNode ll id).matches_.head? with
  | none => rw [hh] at h; exact Option.noConfusion h
  | some m =>
    rw [hh] at h
    cases h
    rfl

theorem findLoop_end_le (n : Nat) (rest : List Nat) : ∀ (ll : LeftmostLongest) (i cur : Nat)
    (last : Option Location) (wf : Nat) (loc : Location),
    i + rest.length ≤ n →
    (∀ l0, last = some l0 → l0.end_ ≤ n) →
    findLoop ll rest i cur last wf = some (some loc) → loc.end_ ≤ n := by
  induction rest with
  | nil =>
    intro ll i cur last wf loc hlen hlast hrun
    simp only [findLoop] at hrun
    cases hrun
    exact hlast loc rfl
  | cons b rs ih =>
    intro ll i cur last wf loc hlen hlast hrun
    simp only [findLoop] at hrun
    cases hw : get_next_non_fail_node_id ll cur b wf with
    | none => rw [hw] at hrun; exact Option.noConfusion hrun
    | some nxt =>
      rw [hw] at hrun
      dsimp only at hrun
      by_cases hd : nxt = DEAD
      · rw [if_pos hd] at hrun
        cases hrun
        exact hlast loc rfl
      · rw [if_neg hd] at hrun
        refine ih ll (i + 1) nxt _ wf loc (by simp at hlen ⊢; omega) ?_ hrun
        intro l0 hl0
        cases hl : get_location ll nxt 0 (i + 1) with
        | some loc2 =>
          rw [hl] at hl0
          dsimp only at hl0
          have he2 := get_location_end ll nxt (i + 1) loc2 hl
          have hl2 : l0 = loc2 := by
            injection hl0 with h2
            exact h2.symm
          rw [hl2, he2]
          simp at hlen
          omega
        | none =>
          rw [hl] at hl0
          dsimp only at hl0
          exact hlast l0 hl0

/-- Claim C6 (amended): whenever the scan starts at an index that is within
the haystack (`start ≤ length`), every returned `Location.end` is at most
the haystack length. -/
theorem C6_end_le_of_start_le (ps : List Pattern) (fuel : Nat) (a : LeftmostLongest)
    (hay : List Nat) (start wf : Nat) (loc : Location)
    (_hnew : LeftmostLongest.new ps fuel = some a) (hstart : start ≤ hay.length)
    (hfind : find a hay start wf = some (some loc)) : loc.end_ ≤ hay.length := by
  unfold find at hfind
  refine findLoop_end_le hay.length (hay.drop start) a start START _ wf loc ?_ ?_ hfind
  · rw [List.length_drop]
    omega
  · intro l0 hl0
    have := get_location_end a START start l0 hl0
    rw [this]
    exact hstart

/-- Claim C5 (amended): for pattern sets without a zero-length pattern, the
code's ordering (pass 3 after the Failure-Link Constructor) agrees with the
spec's ordering (whole State Encoder before the Failure-Link Constructor). -/
theorem C5_pass_ordering (ps : List Pattern) (fuel : Nat) (h : ∀ p ∈ ps, p.value ≠ []) :
    LeftmostLongest.new ps fuel = LeftmostLongest.newSpecOrder ps fuel := by
  have hfilter : ps.filter (fun p => p.value.isEmpty) = [] := by
    rw [List.filter_eq_nil_iff]
    intro p hp
    simpa using h p hp
  have hTm : (getNode (encode_dead_to_dead (encode_start_to_start (build_trie ⟨[]⟩ ps)))
      START).matches_ = [] := by
    unfold encode_dead_to_dead encode_start_to_start
    rw [matches_mapTransitions, matches_mapTransitions, (build_trie_facts ps).2.2, hfilter]
    rfl
  simp only [LeftmostLongest.new, LeftmostLongest.newSpecOrder]
  rw [hTm]
  simp only [List.length_nil, gt_iff_lt, lt_self_iff_false, ite_false]
  cases he : encode_trie_failure
      (encode_dead_to_dead (encode_start_to_start (build_trie ⟨[]⟩ ps))) fuel with
  | none => rfl
  | some ll2 =>
    obtain ⟨g1, g2⟩ := encode_trie_failure_pres _ fuel ll2 (encoded_NoTransToStart ps) he
    have : (getNode ll2 START).matches_ = [] := by rw [g2, hTm]
    simp [this]

theorem tbl_nil_eq (dflt : Nat) : tbl dflt [] = List.replicate 256 dflt := by
  unfold tbl
  have h : (fun b => match List.find? (fun p => p.1 = b) ([] : List (Nat × Nat)) with
      | some p => p.2
      | none => dflt) = Function.const Nat dflt := rfl
  rw [h, List.map_const, List.length_range]

theorem tbl_getD_nil (dflt b x : Nat) (h : b < 256) : (tbl dflt []).getD b x = dflt := by
  rw [tbl_nil_eq, getD_replicate_master]
  simp [h]

theorem trans_autoNil_START (b : Nat) (h : b < 256) : trans autoNil START b = START := by
  have : getNode autoNil START = ⟨[], tbl 2 [], 2, 0⟩ := rfl
  unfold trans
  rw [this]
  exact tbl_getD_nil 2 b FAIL h

theorem findLoop_autoNil (rest : List Nat) : ∀ (i wf : Nat), (∀ b ∈ rest, b < 256) →
    findLoop autoNil rest i START none (wf + 1) = some none := by
  induction rest with
  | nil => intro i wf _; rfl
  | cons b rs ih =>
    intro i wf hb
    have hbb : b < 256 := hb b (List.mem_cons_self b rs)
    have hw : get_next_non_fail_node_id autoNil START b (wf + 1) = some START := by
      simp only [get_next_non_fail_node_id]
      rw [trans_autoNil_START b hbb]
      simp [START, FAIL]
    simp only [findLoop]
    rw [hw]
    dsimp only
    rw [if_neg (by decide : ¬(START = DEAD))]
    have hloc : get_location autoNil START 0 (i + 1) = none := rfl
    rw [hloc]
    exact ih (i + 1) wf (fun b' hb' => hb b' (List.mem_cons_of_mem b hb'))

/-- Claim C10: the empty pattern set builds the three-sentinel automaton and
`find` on it returns `None` for every haystack of bytes and every start
index. -/
theorem C10_empty_pattern_set :
    (∀ fuel, LeftmostLongest.new [] fuel = some autoNil) ∧
    autoNil.nodes.length = 3 ∧
    (∀ (hay : List Nat) (start wf : Nat), (∀ b ∈ hay, b < 256) →
      find autoNil hay start (wf + 1) = some none) := by
  refine ⟨fun fuel => by cases fuel <;> rfl, rfl, ?_⟩
  intro hay start wf hb
  unfold find
  have hloc : get_location autoNil START 0 start = none := rfl
  rw [hloc]
  exact findLoop_autoNil (hay.drop start) start wf
    (fun b hbm => hb b (List.drop_subset start hay hbm))

/-- Witness for C10 at a concrete haystack. -/
theorem C10_empty_pattern_set_witness :
    LeftmostLongest.new [] 7 = some autoNil ∧ find autoNil [97] 0 3 = some none :=
  ⟨C10_empty_pattern_set.1 7, C10_empty_pattern_set.2.2 [97] 0 2 (by decide)⟩

theorem failureStepByte_queue_factor (pos : Position) (ll : LeftmostLongest)
    (q : List Position) (b : Nat) :
    failureStepByte pos (ll, q) b =
      ((failureStepByte pos (ll, []) b).1, q ++ (failureStepByte pos (ll, []) b).2) := by
  simp only [failureStepByte, finishByte]
  by_cases hg : trans ll pos.id b = FAIL
  · simp [hg]
  · simp only [hg, ite_false]
    rcases hd : pos.depth_longest_match with _ | depth
    · by_cases hm : (getNode ll (trans ll pos.id b)).matches_.length > 0
      · simp only [hd, hm, ite_true]
        split <;> simp
      · simp only [hd, hm, ite_false]
        simp
    · by_cases hll : (getNode ll (trans ll pos.id b)).depth - depth + 1 >
          (getNode ll (trans ll (getNode ll pos.id).fail b)).depth
      · simp [hd, hll]
      · simp [hd, hll]

theorem foldl_step_factor (pos : Position) (l : List Nat) : ∀ (ll : LeftmostLongest)
    (q : List Position),
    l.foldl (failureStepByte pos) (ll, q) =
      ((l.foldl (failureStepByte pos) (ll, [])).1,
        q ++ (l.foldl (failureStepByte pos) (ll, [])).2) := by
  induction l with
  | nil => intro ll q; simp
  | cons b bs ih =>
    intro ll q
    rw [List.foldl_cons, List.foldl_cons]
    rw [failureStepByte_queue_factor pos ll q b]
    rcases hs : failureStepByte pos (ll, []) b with ⟨s1, s2⟩
    rw [ih s1 (q ++ s2), ih s1 s2]
    simp [List.append_assoc]

/-- One dequeue of the DEAD node, starting from the pre-failure automaton of
the spec's ordering for the zero-length pattern set. -/
theorem deadStep_from_autoE :
    ((List.range 256).filter
        (fun b => trans autoE (Position.mk 1 (some 0)).id b ≠ FAIL)).foldl
      (failureStepByte (Position.mk 1 (some 0))) (autoE, []) =
      (autoEStep, List.replicate 256 (Position.mk 1 (some 0))) := by decide

/-- Re-dequeueing the DEAD node from the stepped automaton is stationary. -/
theorem deadStep_from_autoEStep :
    ((List.range 256).filter
        (fun b => trans autoEStep (Position.mk 1 (some 0)).id b ≠ FAIL)).foldl
      (failureStepByte (Position.mk 1 (some 0))) (autoEStep, []) =
      (autoEStep, List.replicate 256 (Position.mk 1 (some 0))) := by decide

theorem failureLoop_dead_diverges (fuel : Nat) : ∀ (A : LeftmostLongest) (q : List Position),
    (A = autoE ∨ A = autoEStep) → q ≠ [] → (∀ x ∈ q, x = Position.mk 1 (some 0)) →
    failureLoop A q fuel = none := by
  induction fuel with
  | zero =>
    intro A q hA hq hall
    cases q with
    | nil => exact absurd rfl hq
    | cons pos rest => simp only [failureLoop]
  | succ fuel ih =>
    intro A q hA hq hall
    cases q with
    | nil => exact absurd rfl hq
    | cons pos rest =>
      obtain rfl : pos = Position.mk 1 (some 0) := hall pos (List.mem_cons_self pos rest)
      simp only [failureLoop]
      have hfold : ∀ (B : LeftmostLongest), (B = autoE ∨ B = autoEStep) →
          ((List.range 256).filter
              (fun b => trans B (Position.mk 1 (some 0)).id b ≠ FAIL)).foldl
            (failureStepByte (Position.mk 1 (some 0))) (B, rest) =
          (autoEStep, rest ++ List.replicate 256 (Position.mk 1 (some 0))) := by
        intro B hB
        rw [foldl_step_factor]
        rcases hB with rfl | rfl
        · rw [deadStep_from_autoE]
        · rw [deadStep_from_autoEStep]
      rw [hfold A hA]
      have hlen : ¬((rest ++ List.replicate 256 (Position.mk 1 (some 0))).length = rest.length ∧
          (getNode autoEStep (Position.mk 1 (some 0)).id).matches_.length > 0) := by
        intro hc
        have := hc.1
        rw [List.length_append, List.length_replicate] at this
        omega
      rw [if_neg hlen]
      refine ih autoEStep _ (Or.inr rfl) ?_ ?_
      · intro he
        simp at he
      · intro x hx
        rcases List.mem_append.mp hx with h | h
        · exact hall x (List.mem_cons_of_mem _ h)
        · exact List.eq_of_mem_replicate h

/-- The spec's construction ordering never terminates on the zero-length
pattern set: the Failure-Link Constructor exhausts every fuel. -/
theorem newSpecOrder_emptyPattern_diverges (fuel : Nat) :
    LeftmostLongest.newSpecOrder [Pattern.mk 0 []] fuel = none := by
  have hstart : LeftmostLongest.newSpecOrder [Pattern.mk 0 []] fuel =
      failureLoop autoE (List.replicate 256 (Position.mk 1 (some 0))) fuel := by
    cases fuel with
    | zero => rfl
    | succ n =>
      show failureLoop _ _ _ = _
      congr 1
  rw [hstart]
  exact failureLoop_dead_diverges fuel autoE _ (Or.inl rfl) (by decide)
    (fun x hx => List.eq_of_mem_replicate hx)

/-- Construction evaluated once for the single zero-length pattern. -/
theorem new_emptyPat_eq : LeftmostLongest.new [Pattern.mk 0 []] 1 = some autoE := by rfl

/-- Counterexample for C5: with the zero-length pattern `{0:""}` the code
builds an automaton (all START transitions to DEAD), while running the three
State Encoder passes before the Failure-Link Constructor — the ordering the
claim asserts — enqueues DEAD 256 times and then keeps re-enqueueing it
(`newSpecOrder_emptyPattern_diverges`), so it exhausts any fuel; at equal
fuel the two orderings differ. -/
theorem C5_order_counterexample :
    LeftmostLongest.new [Pattern.mk 0 []] 1 = some autoE ∧
    LeftmostLongest.newSpecOrder [Pattern.mk 0 []] 1 = none ∧
    LeftmostLongest.new [Pattern.mk 0 []] 1 ≠ LeftmostLongest.newSpecOrder [Pattern.mk 0 []] 1 := by
  refine ⟨new_emptyPat_eq, newSpecOrder_emptyPattern_diverges 1, ?_⟩
  rw [new_emptyPat_eq, newSpecOrder_emptyPattern_diverges 1]
  exact fun h => Option.noConfusion h

/-- Witness for C5 (amended) at a one-pattern set without zero-length
patterns. -/
theorem C5_pass_ordering_witness :
    LeftmostLongest.new [Pattern.mk 0 [98]] 5 = LeftmostLongest.newSpecOrder [Pattern.mk 0 [98]] 5 :=
  C5_pass_ordering [Pattern.mk 0 [98]] 5 (by decide)

/-- Counterexample for C6: with the zero-length pattern `{0:""}` and
`start_byte_index` 5 past the end of the empty haystack, `find` returns a
location whose `end` (5) exceeds the haystack length (0). -/
theorem C6_end_counterexample :
    (LeftmostLongest.new [Pattern.mk 0 []] 1).bind (fun a => find a [] 5 1) =
      some (some ⟨⟨0, 0⟩, 5⟩) ∧ ([] : List Nat).length < 5 :=
  ⟨by rfl, by decide⟩

/-- Construction evaluated once for `pats7`. -/
theorem new_pats7_eq : LeftmostLongest.new pats7 20 = some auto7 := by rfl

/-- Construction evaluated once for `pats1`. -/
theorem new_pats1_eq : LeftmostLongest.new pats1 20 = some auto1 := by rfl

/-- Construction evaluated once for `pats2`. -/
theorem new_pats2_eq : LeftmostLongest.new pats2 20 = some auto2 := by rfl

/-- Claim C7: for the pattern set `{0:"bc", 1:"ghi", 2:"o p", 3:"qr"}` and
haystack `"abc def ghi jkl mno pqr abc"`, repeatedly invoking `find` and
resuming at the previous match's end (or advancing by 1 when the end equals
the current position) yields exactly
`(0, len 2, end 3), (1, len 3, end 11), (2, len 3, end 21), (3, len 2, end 23), (0, len 2, end 27)`. -/
theorem C7_reference_scenario :
    (LeftmostLongest.new pats7 20).bind (fun a => allLoop a hay7 0 [] 10 10) =
      some [⟨⟨0, 2⟩, 3⟩, ⟨⟨1, 3⟩, 11⟩, ⟨⟨2, 3⟩, 21⟩, ⟨⟨3, 2⟩, 23⟩, ⟨⟨0, 2⟩, 27⟩] := by
  rw [new_pats7_eq]; rfl

/-- Claim C1: the leftmost-longest law fails on the code.  For the pattern
set `{0:"abcx", 1:"bd", 2:"c"}` and haystack `"abc"`, pattern 2 (`"c"`)
occurs at start offset 2 ≥ 0, so the law demands a `Location` with
`end - pattern_len = 2`; the built automaton's `find` returns no match at
all (the completed scan yields `none`). -/
theorem C1_leftmost_longest_law_fails :
    (LeftmostLongest.new pats1 20).bind (fun a => find a [97, 98, 99] 0 10) = some none ∧
    Pattern.mk 2 [99] ∈ pats1 ∧ List.drop 2 [97, 98, 99] = [99] :=
  ⟨by rw [new_pats1_eq]; rfl, by decide, rfl⟩

/-- Claim C2: the post-condition "every reachable node's fail is a concrete
state id other than FAIL" fails on the code.  For the pattern set
`{0:"abcx", 1:"bd"}`, node 5 is reachable from START via the transitions
`START -97-> 3 -98-> 4 -99-> 5`, yet after construction its fail link is the
FAIL sentinel (id 0). -/
theorem C2_reachable_node_fails_to_FAIL :
    (LeftmostLongest.new pats2 20).map
        (fun a => (trans a START 97, trans a 3 98, trans a 4 99, (getNode a 5).fail)) =
      some (3, 4, 5, FAIL) := by
  rw [new_pats2_eq]; rfl

/-- Claim C3: the candidate fail target the code assigns is not the one the
spec describes.  For the pattern set `{0:"abcx", 1:"bd", 2:"c"}`, when node
4 ("ab") is dequeued and its child on byte 99 ('c', node 5 "abc") is
processed, the code's candidate — the transition on 99 of `fail 4 = 7`
("b"), read off the final automaton whose fail links for nodes 4 and 7 are
never reassigned afterwards — is `FAIL` (0), and it is assigned as node 5's
fail; following node 4's failure chain per the spec instead reaches node 9
("c"). -/
theorem C3_candidate_fail_target_wrong :
    (LeftmostLongest.new pats1 20).map
        (fun a => ((getNode a 4).fail, trans a (getNode a 4).fail 99,
                   specFailureChainTarget a 4 99 10, (getNode a 5).fail)) =
      some (7, FAIL, some 9, FAIL) := by
  rw [new_pats1_eq]; rfl

/-- Claim C4: the FAIL sentinel is encountered at scan time.  For the
pattern set `{0:"abcx", 1:"bd"}` and haystack `"abcz"`, the scan reaches
node 5 ("abc", via `START -97-> 3 -98-> 4 -99-> 5`), and resolving byte 122
('z') from there walks through node 5's fail link straight onto node 0 — the
FAIL sentinel — before ending at START; the scan as a whole still terminates
and returns no match. -/
theorem C4_scan_walk_visits_FAIL :
    (LeftmostLongest.new pats2 20).map
        (fun a => (trans a START 97, trans a 3 98, trans a 4 99,
                   walkVisited a 5 122 10, find a [97, 98, 99, 122] 0 10)) =
      some (3, 4, 5, some [5, FAIL, START], some none) := by
  rw [new_pats2_eq]; rfl


/-- Witness for C9 at the zero-length pattern set, haystack `[5]`, start 3:
the start index is past the end and the zero-length pattern's match is
reported with `end = 3`. -/
theorem C9_scan_from_past_end_witness :
    LeftmostLongest.new [Pattern.mk 0 []] 1 = some autoE ∧ ([5] : List Nat).length ≤ 3 ∧
    find autoE [5] 3 4 = some (some ⟨⟨0, 0⟩, 3⟩) := by
  refine ⟨new_emptyPat_eq, by decide, ?_⟩
  have h := C9_scan_from_past_end [Pattern.mk 0 []] 1 autoE [5] 3 4 new_emptyPat_eq (by decide)
  simpa using h

/-- Witness for C6 (amended) on the reference pattern set: the first match of
the test scenario has `end = 3`, within the 27-byte haystack. -/
theorem C6_end_le_of_start_le_witness :
    find auto7 hay7 0 10 = some (some ⟨⟨0, 2⟩, 3⟩) ∧
    (Location.mk ⟨0, 2⟩ 3).end_ ≤ hay7.length := by
  refine ⟨by rfl, ?_⟩
  exact C6_end_le_of_start_le pats7 20 auto7 hay7 0 10 ⟨⟨0, 2⟩, 3⟩ new_pats7_eq (by decide) (by rfl)

end Scout
